import Mathlib

/-!
Shallow embedding of the wxve-chat client (src/main.rs): the data model,
the SSE frame parser of `send_message`, the stream-event handler of
`do_send`, and the submission guard.  JSON decoding of individual data
lines is abstracted: the turn-level theorems are stated over the decoded
`StreamChunk` events, exactly the values the `on_chunk` closure receives.
-/

namespace WxveChat

/-- Mirrors `enum Role` in main.rs. -/
inductive Role
  | user
  | assistant
deriving DecidableEq, Repr

/-- Mirrors `struct Chart { symbol, html }` in main.rs. -/
structure Chart where
  symbol : String
  html : String
deriving DecidableEq, Repr

/-- Mirrors `struct Message { id, role, content, charts }` in main.rs. -/
structure Message where
  id : Nat
  role : Role
  content : String
  charts : List Chart
deriving DecidableEq, Repr

/-- Mirrors `struct ChatRequest { message, history }` in main.rs. -/
structure ChatRequest where
  message : String
  history : List Message
deriving DecidableEq, Repr

/-- Mirrors `enum StreamChunk` in main.rs (the decoded SSE events). -/
inductive StreamChunk
  | text (content : String)
  | toolStart (name : String)
  | toolEnd (name : String)
  | chart (symbol : String) (html : String)
  | done
  | error (message : String)
deriving DecidableEq, Repr

/-- Unicode code points with the White_Space property, as used by Rust's
`str::trim` (via `char::is_whitespace`). -/
def rustWhitespace (c : Char) : Bool :=
  let n := c.toNat
  n = 0x20 || (0x09 ≤ n && n ≤ 0x0D) || n = 0x85 || n = 0xA0 || n = 0x1680 ||
  (0x2000 ≤ n && n ≤ 0x200A) || n = 0x2028 || n = 0x2029 || n = 0x202F ||
  n = 0x205F || n = 0x3000

/-- Rust's `str::trim`: strip leading and trailing whitespace characters. -/
def rustTrim (s : String) : String :=
  String.mk (((s.data.dropWhile rustWhitespace).reverse.dropWhile rustWhitespace).reverse)

/-- Is `b` a UTF-8 continuation byte (`0x80 ..= 0xBF`)? -/
def isCont (b : Nat) : Bool := 0x80 ≤ b && b ≤ 0xBF

/-- The U+FFFD replacement character. -/
def repl : Char := Char.ofNat 0xFFFD

/-- Rust's `String::from_utf8_lossy` on a byte list, with a structural
fuel argument (each step consumes at least one byte, so fuel equal to
the list length suffices): well-formed UTF-8 sequences decode to their
scalar value; each maximal invalid subpart (lone continuation byte,
overlong/surrogate/out-of-range lead, or a valid prefix cut short,
including at end of input) is replaced by one U+FFFD, resuming at the
first byte that did not extend the sequence. -/
def utf8LossyAux : Nat → List Nat → List Char
  | 0, _ => []
  | _, [] => []
  | fuel + 1, b0 :: rest =>
    if b0 < 0x80 then
      Char.ofNat b0 :: utf8LossyAux fuel rest
    else if 0xC2 ≤ b0 && b0 ≤ 0xDF then
      match rest with
      | [] => [repl]
      | b1 :: rest1 =>
        if isCont b1 then
          Char.ofNat ((b0 - 0xC0) * 0x40 + (b1 - 0x80)) :: utf8LossyAux fuel rest1
        else
          repl :: utf8LossyAux fuel (b1 :: rest1)
    else if 0xE0 ≤ b0 && b0 ≤ 0xEF then
      match rest with
      | [] => [repl]
      | b1 :: rest1 =>
        if (b0 = 0xE0 && (0xA0 ≤ b1 && b1 ≤ 0xBF)) ||
           (b0 = 0xED && (0x80 ≤ b1 && b1 ≤ 0x9F)) ||
           (b0 ≠ 0xE0 && b0 ≠ 0xED && isCont b1) then
          match rest1 with
          | [] => [repl]
          | b2 :: rest2 =>
            if isCont b2 then
              Char.ofNat ((b0 - 0xE0) * 0x1000 + (b1 - 0x80) * 0x40 + (b2 - 0x80)) ::
                utf8LossyAux fuel rest2
            else
              repl :: utf8LossyAux fuel (b2 :: rest2)
        else
          repl :: utf8LossyAux fuel (b1 :: rest1)
    else if 0xF0 ≤ b0 && b0 ≤ 0xF4 then
      match rest with
      | [] => [repl]
      | b1 :: rest1 =>
        if (b0 = 0xF0 && (0x90 ≤ b1 && b1 ≤ 0xBF)) ||
           (b0 = 0xF4 && (0x80 ≤ b1 && b1 ≤ 0x8F)) ||
           (b0 ≠ 0xF0 && b0 ≠ 0xF4 && isCont b1) then
          match rest1 with
          | [] => [repl]
          | b2 :: rest2 =>
            if isCont b2 then
              match rest2 with
              | [] => [repl]
              | b3 :: rest3 =>
                if isCont b3 then
                  Char.ofNat ((b0 - 0xF0) * 0x40000 + (b1 - 0x80) * 0x1000 +
                      (b2 - 0x80) * 0x40 + (b3 - 0x80)) :: utf8LossyAux fuel rest3
                else
                  repl :: utf8LossyAux fuel (b3 :: rest3)
            else
              repl :: utf8LossyAux fuel (b2 :: rest2)
        else
          repl :: utf8LossyAux fuel (b1 :: rest1)
    else
      repl :: utf8LossyAux fuel rest

/-- `String::from_utf8_lossy` on a byte list. -/
def utf8Lossy (bs : List Nat) : List Char := utf8LossyAux bs.length bs

/-- The line-extraction loop of `send_message` (main.rs lines 133-136):
split the buffer at each `'\n'`, returning the complete lines in order
and the unconsumed remainder kept for the next fragment. -/
def framesAux (cur : List Char) : List Char → List (List Char) × List Char
  | [] => ([], cur)
  | c :: rest =>
    if c = '\n' then
      let (ls, rem) := framesAux [] rest
      (cur :: ls, rem)
    else
      framesAux (cur ++ [c]) rest

/-- One iteration of the read loop of `send_message`: lossily decode the
arriving byte fragment, append it to the text buffer, then extract every
complete line, trimmed (main.rs lines 130-136).  Returns the new buffer
and the trimmed lines emitted. -/
def processFragment (buf : List Char) (bytes : List Nat) : List Char × List String :=
  let (ls, rem) := framesAux [] (buf ++ utf8Lossy bytes)
  (rem, ls.map (fun l => rustTrim (String.mk l)))

/-- The full Frame Parser run of `send_message` over a fragment sequence:
fold `processFragment` from an empty buffer and concatenate the emitted
trimmed lines; any unterminated trailing buffer content is discarded at
end of stream. -/
def emittedLines (frags : List (List Nat)) : List String :=
  (frags.foldl
    (fun acc f =>
      let (rem, ls) := processFragment acc.1 f
      (rem, acc.2 ++ ls))
    (([] : List Char), ([] : List String))).2

/-- The reactive signals owned by the `App` component (main.rs lines
158-164), gathered into one record: the Conversation Store (`messages`),
the input box value, the loading flag, the in-flight assistant text
buffer (`current_response`), the id counter, the active tool name and
the pending charts. -/
structure TurnState where
  messages : List Message
  input : String
  loading : Bool
  currentResponse : String
  nextId : Nat
  toolRunning : Option String
  pendingCharts : List Chart
deriving DecidableEq, Repr

/-- Does `send_message`'s dispatch loop return early after this chunk
(`matches!(chunk, StreamChunk::Done)`, main.rs line 139)? -/
def StreamChunk.isDone : StreamChunk → Bool
  | .done => true
  | _ => false

/-- A terminal event of the protocol: `done` or `error`. -/
def StreamChunk.isTerminal : StreamChunk → Bool
  | .done => true
  | .error _ => true
  | _ => false

/-- The `on_chunk` closure of `do_send` (main.rs lines 209-255): how one
decoded stream event updates the signals. -/
def applyChunk (s : TurnState) : StreamChunk → TurnState
  | .text content =>
    { s with currentResponse := s.currentResponse ++ content }
  | .chart symbol html =>
    { s with pendingCharts := s.pendingCharts ++ [⟨symbol, html⟩] }
  | .done =>
    { s with
      messages := s.messages ++
        [⟨s.nextId, .assistant, s.currentResponse, s.pendingCharts⟩]
      nextId := s.nextId + 1
      currentResponse := ""
      pendingCharts := []
      loading := false }
  | .error message =>
    { s with
      messages := s.messages ++ [⟨s.nextId, .assistant, "Error: " ++ message, []⟩]
      nextId := s.nextId + 1
      loading := false }
  | .toolStart name =>
    { s with toolRunning := some name }
  | .toolEnd _ =>
    { s with toolRunning := none, currentResponse := s.currentResponse ++ "\n\n" }

/-- The event-dispatch loop of `send_message` (main.rs lines 137-146):
apply each decoded chunk via `on_chunk`, returning early right after a
`done` chunk.  The boolean records whether that early return happened. -/
def dispatchChunks : TurnState → List StreamChunk → TurnState × Bool
  | s, [] => (s, false)
  | s, c :: rest =>
    let s1 := applyChunk s c
    if c.isDone then (s1, true) else dispatchChunks s1 rest

/-- The `do_send` closure (main.rs lines 182-272) with the stream's
decoded chunks supplied as a list: guard against blank input or an
in-flight turn, clear the input and in-flight buffers, capture `history`
before pushing the user message, push the user message, then run the
dispatch loop.  Returns the final signal state and the issued
`ChatRequest` (`none` when the submission was rejected). -/
def doSend (s : TurnState) (chunks : List StreamChunk) : TurnState × Option ChatRequest :=
  let msg := s.input
  if rustTrim msg = "" || s.loading then
    (s, none)
  else
    let s1 := { s with input := "", loading := true, currentResponse := "",
                       pendingCharts := ([] : List Chart) }
    let history := s1.messages
    let mid := s1.nextId
    let s2 := { s1 with
                nextId := mid + 1
                messages := s1.messages ++ [⟨mid, .user, msg, []⟩] }
    ((dispatchChunks s2 chunks).1, some ⟨msg, history⟩)

/-- One full submit-and-stream turn: the user sets the input box to
`t.1`, presses send, and the response stream decodes to the chunks
`t.2`. -/
def runTurn (s : TurnState) (t : String × List StreamChunk) : TurnState :=
  (doSend { s with input := t.1 } t.2).1

/-- The state right after `do_send` accepts a submission and before any
stream event arrives: input cleared, loading set, in-flight buffers
reset, the user message pushed with the next id. -/
def submitState (s : TurnState) : TurnState :=
  { s with
    input := ""
    loading := true
    currentResponse := ""
    pendingCharts := ([] : List Chart)
    nextId := s.nextId + 1
    messages := s.messages ++ [⟨s.nextId, .user, s.input, []⟩] }

/-- The spec's content rule, stated from the spec's words: the exact
concatenation of all text-event contents in arrival order, with the
two-newline separator inserted exactly once per tool-end event. -/
def specContent : List StreamChunk → String
  | [] => ""
  | .text t :: cs => t ++ specContent cs
  | .toolEnd _ :: cs => "\n\n" ++ specContent cs
  | _ :: cs => specContent cs

/-- The charts accumulated by a list of stream events, in arrival
order. -/
def specCharts : List StreamChunk → List Chart
  | [] => []
  | .chart sy h :: cs => ⟨sy, h⟩ :: specCharts cs
  | _ :: cs => specCharts cs

/-- The id invariant of the Conversation Store: every `next_id.get()` so
far was handed out in push order, so the stored ids are exactly
`0, 1, ..., len-1` and the counter sits at `len`. -/
def IdInv (s : TurnState) : Prop :=
  s.messages.map Message.id = List.range s.messages.length ∧
  s.nextId = s.messages.length

/-- Initial signal state of the `App` component: empty store, empty
input, not loading, counter at zero. -/
def initState : TurnState := ⟨[], "", false, "", 0, none, []⟩

/-- A fresh session whose input box holds `"hi"`. -/
def c1State : TurnState := ⟨[], "hi", false, "", 0, none, []⟩

/-- The whole-delivery byte stream `data: {U+00E9}{newline}` (the line
payload is the two-byte UTF-8 character `0xC3 0xA9`). -/
def c2Whole : List Nat := [100, 97, 116, 97, 58, 32, 0xC3, 0xA9, 0x0A]

/-- The same bytes split into two fragments, the boundary falling
between the two bytes of the UTF-8 character. -/
def c2Sliced : List (List Nat) := [[100, 97, 116, 97, 58, 32, 0xC3], [0xA9, 0x0A]]

/-- A mid-stream state: some text already streamed, a tool running, one
pending chart. -/
def c3State : TurnState :=
  ⟨[⟨0, .user, "hi", []⟩], "", true, "partial", 1, some "search", [⟨"AAPL", "<div>"⟩]⟩

/-- A fresh session whose input box holds `"q"`. -/
def c4State : TurnState := ⟨[], "q", false, "", 0, none, []⟩

/-- The stream of §8's fourth property: tool boundary first, then two
text deltas, then done. -/
def c4Chunks : List StreamChunk :=
  [.toolStart "t", .toolEnd "t", .text "A", .text "B", .done]

/-- A fresh session whose input box holds `"go"`. -/
def c6State : TurnState := ⟨[], "go", false, "", 0, none, []⟩

/-- A session with two stored messages and input `"hello"`. -/
def c7State : TurnState :=
  ⟨[⟨0, .user, "a", []⟩, ⟨1, .assistant, "b", []⟩], "hello", false, "", 2, none, []⟩

/-- A session whose input box holds only whitespace. -/
def c8State : TurnState := ⟨[], "   ", false, "", 0, none, []⟩

/-- Four submissions: a normal turn, a whitespace-only rejected one, a
turn failed by a server error, and a turn whose stream ends without a
terminal event. -/
def c9Turns : List (String × List StreamChunk) :=
  [("hi", [.text "a", .done]), ("  ", []), ("x", [.error "e"]), ("y", [.text "z"])]

/-- A fresh session whose input box holds `" hi "`, untrimmed. -/
def c10State : TurnState := ⟨[], " hi ", false, "", 0, none, []⟩

/-- A session that is already loading when send is pressed. -/
def c10Busy : TurnState := ⟨[], "ok", true, "", 0, none, []⟩

theorem isDone_false_of_not_terminal {c : StreamChunk}
    (h : c.isTerminal = false) : c.isDone = false := by
  cases c <;> simp_all [StreamChunk.isTerminal, StreamChunk.isDone]

theorem applyChunk_input (s : TurnState) (c : StreamChunk) :
    (applyChunk s c).input = s.input := by
  cases c <;> rfl

theorem dispatchChunks_input (cs : List StreamChunk) : ∀ s : TurnState,
    (dispatchChunks s cs).1.input = s.input := by
  induction cs with
  | nil => intro s; rfl
  | cons c rest ih =>
    intro s
    by_cases h : c.isDone <;>
      simp [dispatchChunks, h, ih, applyChunk_input]

theorem applyChunk_messages_prefix (s : TurnState) (c : StreamChunk) :
    ∃ t, (applyChunk s c).messages = s.messages ++ t := by
  cases c with
  | done =>
    exact ⟨[⟨s.nextId, .assistant, s.currentResponse, s.pendingCharts⟩],
      by simp [applyChunk]⟩
  | error m =>
    exact ⟨[⟨s.nextId, .assistant, "Error: " ++ m, []⟩], by simp [applyChunk]⟩
  | text t => exact ⟨[], by simp [applyChunk]⟩
  | toolStart n => exact ⟨[], by simp [applyChunk]⟩
  | toolEnd n => exact ⟨[], by simp [applyChunk]⟩
  | chart sy hm => exact ⟨[], by simp [applyChunk]⟩

theorem dispatchChunks_messages_prefix (cs : List StreamChunk) :
    ∀ s : TurnState, ∃ t, (dispatchChunks s cs).1.messages = s.messages ++ t := by
  induction cs with
  | nil => intro s; exact ⟨[], by simp [dispatchChunks]⟩
  | cons c rest ih =>
    intro s
    obtain ⟨t1, ht1⟩ := applyChunk_messages_prefix s c
    by_cases h : c.isDone
    · exact ⟨t1, by simp [dispatchChunks, h, ht1]⟩
    · obtain ⟨t2, ht2⟩ := ih (applyChunk s c)
      exact ⟨t1 ++ t2, by simp [dispatchChunks, h, ht2, ht1]⟩

/-- Dispatching a stream of non-terminal events touches only the
in-flight buffers: the store, the id counter, the loading flag and the
input are untouched, no early return fires, and the text buffer and
chart list grow exactly by the spec's folds. -/
theorem dispatchChunks_stream (cs : List StreamChunk) : ∀ s : TurnState,
    (∀ c ∈ cs, c.isTerminal = false) →
    (dispatchChunks s cs).2 = false ∧
    (dispatchChunks s cs).1.messages = s.messages ∧
    (dispatchChunks s cs).1.nextId = s.nextId ∧
    (dispatchChunks s cs).1.loading = s.loading ∧
    (dispatchChunks s cs).1.currentResponse = s.currentResponse ++ specContent cs ∧
    (dispatchChunks s cs).1.pendingCharts = s.pendingCharts ++ specCharts cs := by
  induction cs with
  | nil =>
    intro s _
    exact ⟨rfl, rfl, rfl, rfl, by simp [dispatchChunks, specContent],
      by simp [dispatchChunks, specCharts]⟩
  | cons c rest ih =>
    intro s h
    have hc : c.isTerminal = false := h c (List.mem_cons_self c rest)
    have hrest : ∀ x ∈ rest, x.isTerminal = false :=
      fun x hx => h x (List.mem_cons_of_mem c hx)
    have hd : c.isDone = false := isDone_false_of_not_terminal hc
    have step : dispatchChunks s (c :: rest) = dispatchChunks (applyChunk s c) rest := by
      simp [dispatchChunks, hd]
    obtain ⟨i1, i2, i3, i4, i5, i6⟩ := ih (applyChunk s c) hrest
    rw [step]
    cases c with
    | text t =>
      refine ⟨i1, ?_, ?_, ?_, ?_, ?_⟩
      · rw [i2]; simp [applyChunk]
      · rw [i3]; simp [applyChunk]
      · rw [i4]; simp [applyChunk]
      · rw [i5]; simp [applyChunk, specContent, String.append_assoc]
      · rw [i6]; simp [applyChunk, specCharts]
    | toolStart n =>
      refine ⟨i1, ?_, ?_, ?_, ?_, ?_⟩
      · rw [i2]; simp [applyChunk]
      · rw [i3]; simp [applyChunk]
      · rw [i4]; simp [applyChunk]
      · rw [i5]; simp [applyChunk, specContent]
      · rw [i6]; simp [applyChunk, specCharts]
    | toolEnd n =>
      refine ⟨i1, ?_, ?_, ?_, ?_, ?_⟩
      · rw [i2]; simp [applyChunk]
      · rw [i3]; simp [applyChunk]
      · rw [i4]; simp [applyChunk]
      · rw [i5]; simp [applyChunk, specContent, String.append_assoc]
      · rw [i6]; simp [applyChunk, specCharts]
    | chart sy hm =>
      refine ⟨i1, ?_, ?_, ?_, ?_, ?_⟩
      · rw [i2]; simp [applyChunk]
      · rw [i3]; simp [applyChunk]
      · rw [i4]; simp [applyChunk]
      · rw [i5]; simp [applyChunk, specContent]
      · rw [i6]; simp [applyChunk, specCharts]
    | done => simp [StreamChunk.isTerminal] at hc
    | error m => simp [StreamChunk.isTerminal] at hc

/-- As long as no `done` chunk has been dispatched, the loop keeps
going: dispatching `cs ++ ds` is dispatching `ds` from the state reached
after `cs`. -/
theorem dispatchChunks_append (cs ds : List StreamChunk) : ∀ s : TurnState,
    (∀ c ∈ cs, c.isDone = false) →
    dispatchChunks s (cs ++ ds) = dispatchChunks (dispatchChunks s cs).1 ds := by
  induction cs with
  | nil => intro s _; rfl
  | cons c rest ih =>
    intro s h
    have hc : c.isDone = false := h c (List.mem_cons_self c rest)
    have hrest : ∀ x ∈ rest, x.isDone = false :=
      fun x hx => h x (List.mem_cons_of_mem c hx)
    simp [dispatchChunks, hc, ih _ hrest]

theorem doSend_guard_false {s : TurnState} (hin : rustTrim s.input ≠ "")
    (hload : s.loading = false) :
    (decide (rustTrim s.input = "") || s.loading) = false := by
  simp [hin, hload]

/-- An accepted submission: the guard passes, the user message is pushed
after the history snapshot, and the dispatch loop runs from the
submit-time state. -/
theorem doSend_accepted (s : TurnState) (chunks : List StreamChunk)
    (hin : rustTrim s.input ≠ "") (hload : s.loading = false) :
    doSend s chunks =
      ((dispatchChunks (submitState s) chunks).1, some ⟨s.input, s.messages⟩) := by
  unfold doSend
  simp only [doSend_guard_false hin hload, Bool.false_eq_true, if_false]
  rfl

/-- C2: the Frame Parser is not chunking-invariant.  Delivering the
bytes of `data: {U+00E9}{newline}` whole emits the line `data: {U+00E9}`,
while delivering the same bytes split inside the two-byte UTF-8
character emits a different line containing two U+FFFD replacement
characters, because each arriving fragment is decoded with
`from_utf8_lossy` before being appended to the line buffer
(main.rs line 130). -/
theorem frame_parser_multibyte_split_divergence :
    emittedLines [c2Whole] = ["data: é"] ∧
    emittedLines c2Sliced = ["data: ��"] ∧
    emittedLines [c2Whole] ≠ emittedLines c2Sliced := by
  exact ⟨by decide, by decide, by decide⟩

/-- C3 counterexample: after an `error` event the in-flight state is not
reset (the assistant text buffer, pending charts and active tool name
all keep their values), and the dispatch loop keeps applying subsequent
events (a following `text` event still appends to the buffer). -/
theorem error_event_leaves_inflight_state_uncleared :
    ¬((applyChunk c3State (.error "oops")).currentResponse = "" ∧
      (applyChunk c3State (.error "oops")).pendingCharts = [] ∧
      (applyChunk c3State (.error "oops")).toolRunning = none) ∧
    (dispatchChunks c3State [.error "oops", .text "y"]).1.currentResponse =
      "partialy" := by
  exact ⟨by decide, by decide⟩

/-- C3 amended: an `error` event commits an assistant message
`"Error: " + m` with no charts and sets `isLoading` to false, but the
in-flight buffers (assistant text, pending charts, active tool name)
are left untouched, and the dispatch loop continues past the error
(only `done` stops it). -/
theorem error_event_commits_without_reset (s : TurnState) (m : String)
    (rest : List StreamChunk) :
    (applyChunk s (.error m)).messages =
      s.messages ++ [⟨s.nextId, .assistant, "Error: " ++ m, []⟩] ∧
    (applyChunk s (.error m)).loading = false ∧
    (applyChunk s (.error m)).currentResponse = s.currentResponse ∧
    (applyChunk s (.error m)).pendingCharts = s.pendingCharts ∧
    (applyChunk s (.error m)).toolRunning = s.toolRunning ∧
    dispatchChunks s (.error m :: rest) =
      dispatchChunks (applyChunk s (.error m)) rest := by
  refine ⟨rfl, rfl, rfl, rfl, rfl, ?_⟩
  simp [dispatchChunks, StreamChunk.isDone]

/-- C4 counterexample: for the stream `tool_start`, `tool_end`,
`text "A"`, `text "B"`, `done`, the finalized assistant content is not
`"AB"`. -/
theorem tool_end_first_content_is_not_plain_AB :
    (doSend c4State c4Chunks).1.messages.map Message.content ≠ ["q", "AB"] := by
  decide

/-- C4 amended: for that stream the finalized assistant content is
exactly `"\n\nAB"`: the separator is appended at `tool_end` to the
then-empty buffer and therefore precedes the first text delta. -/
theorem tool_end_first_content_has_leading_separator :
    (doSend c4State c4Chunks).1.messages.map Message.content = ["q", "\n\nAB"] := by
  decide

/-- C5: an `error` event with message `m` commits an assistant message
whose content is exactly `"Error: " + m`, with an empty charts list, and
`isLoading` becomes false. -/
theorem error_event_finalizes_error_message (s : TurnState) (m : String) :
    (applyChunk s (.error m)).messages =
      s.messages ++ [⟨s.nextId, .assistant, "Error: " ++ m, []⟩] ∧
    (applyChunk s (.error m)).loading = false :=
  ⟨rfl, rfl⟩

/-- C8: a submission while loading, or with whitespace-only input, is a
complete no-op: the state is unchanged and no request is issued. -/
theorem rejected_submission_is_noop (s : TurnState) (cs : List StreamChunk)
    (h : rustTrim s.input = "" ∨ s.loading = true) :
    doSend s cs = (s, none) := by
  rcases h with h | h <;> simp [doSend, h]

/-- C8 witness: whitespace-only input is rejected without any effect. -/
theorem rejected_submission_is_noop_witness :
    (rustTrim c8State.input = "" ∨ c8State.loading = true) ∧
    doSend c8State [StreamChunk.text "x"] = (c8State, none) :=
  ⟨Or.inl (by decide),
    rejected_submission_is_noop c8State [StreamChunk.text "x"] (Or.inl (by decide))⟩

/-- C1: a turn that finalizes via `done` commits an assistant message
whose content is exactly the concatenation of all text-event contents in
arrival order with one `"\n\n"` appended per tool-end event, and whose
charts are the accumulated chart events. -/
theorem done_finalizes_exact_concatenation (s : TurnState) (cs : List StreamChunk)
    (hin : rustTrim s.input ≠ "") (hload : s.loading = false)
    (hcs : ∀ c ∈ cs, c.isTerminal = false) :
    (doSend s (cs ++ [StreamChunk.done])).1.messages =
      s.messages ++ [⟨s.nextId, .user, s.input, []⟩,
        ⟨s.nextId + 1, .assistant, specContent cs, specCharts cs⟩] := by
  have hdone : ∀ c ∈ cs, c.isDone = false :=
    fun c hc => isDone_false_of_not_terminal (hcs c hc)
  rw [doSend_accepted s _ hin hload]
  rw [dispatchChunks_append cs [StreamChunk.done] (submitState s) hdone]
  obtain ⟨-, m2, m3, -, m5, m6⟩ := dispatchChunks_stream cs (submitState s) hcs
  have hstep :
      dispatchChunks (dispatchChunks (submitState s) cs).1 [StreamChunk.done] =
        (applyChunk (dispatchChunks (submitState s) cs).1 StreamChunk.done, true) := by
    simp [dispatchChunks, StreamChunk.isDone]
  rw [hstep]
  show ((dispatchChunks (submitState s) cs).1.messages ++ _) = _
  rw [m2, m3, m5, m6]
  simp [submitState, List.append_assoc]

/-- C1 witness: text events `"Hel"` then `"lo"` then `done` in a fresh
session finalize the assistant content `"Hello"`. -/
theorem done_finalizes_exact_concatenation_witness :
    rustTrim c1State.input ≠ "" ∧ c1State.loading = false ∧
    (doSend c1State ([StreamChunk.text "Hel", StreamChunk.text "lo"] ++
        [StreamChunk.done])).1.messages =
      [⟨0, .user, "hi", []⟩, ⟨1, .assistant, "Hello", []⟩] := by
  refine ⟨by decide, by decide, ?_⟩
  have h := done_finalizes_exact_concatenation c1State
    [StreamChunk.text "Hel", StreamChunk.text "lo"]
    (by decide) (by decide) (by decide)
  exact h.trans (by decide)

/-- C6: when the stream's decoded events contain neither `done` nor
`error`, the accepted turn never finalizes: only the optimistic user
message was committed and the loading flag is still set at end of
stream. -/
theorem stream_end_without_terminal_never_finalizes (s : TurnState)
    (cs : List StreamChunk)
    (hin : rustTrim s.input ≠ "") (hload : s.loading = false)
    (hcs : ∀ c ∈ cs, c.isTerminal = false) :
    (doSend s cs).1.loading = true ∧
    (doSend s cs).1.messages = s.messages ++ [⟨s.nextId, .user, s.input, []⟩] := by
  rw [doSend_accepted s cs hin hload]
  obtain ⟨-, m2, -, m4, -, -⟩ := dispatchChunks_stream cs (submitState s) hcs
  constructor
  · rw [m4]; rfl
  · rw [m2]; rfl

/-- C6 witness: a stream of one text event and then end-of-data leaves
the turn loading with only the user message committed. -/
theorem stream_end_without_terminal_never_finalizes_witness :
    rustTrim c6State.input ≠ "" ∧
    (doSend c6State [StreamChunk.text "a"]).1.loading = true ∧
    (doSend c6State [StreamChunk.text "a"]).1.messages =
      c6State.messages ++ [⟨0, .user, "go", []⟩] := by
  have h := stream_end_without_terminal_never_finalizes c6State
    [StreamChunk.text "a"] (by decide) (by decide) (by decide)
  exact ⟨by decide, h.1, h.2⟩

/-- C7: the issued request's history is the store captured strictly
before the user message is appended, and the triggering user message
itself is not in it. -/
theorem history_excludes_triggering_user_message (s : TurnState)
    (cs : List StreamChunk)
    (hin : rustTrim s.input ≠ "") (hload : s.loading = false)
    (hids : ∀ m ∈ s.messages, m.id < s.nextId) :
    (doSend s cs).2 = some ⟨s.input, s.messages⟩ ∧
    (⟨s.nextId, .user, s.input, []⟩ : Message) ∉ s.messages := by
  refine ⟨by rw [doSend_accepted s cs hin hload], ?_⟩
  intro hmem
  have hlt := hids _ hmem
  simp at hlt

/-- C7 witness: with two stored messages, the request history is those
two messages and does not contain the new user message. -/
theorem history_excludes_triggering_user_message_witness :
    rustTrim c7State.input ≠ "" ∧
    (doSend c7State []).2 =
      some ⟨"hello", [⟨0, .user, "a", []⟩, ⟨1, .assistant, "b", []⟩]⟩ ∧
    (⟨2, .user, "hello", []⟩ : Message) ∉ c7State.messages := by
  have h := history_excludes_triggering_user_message c7State []
    (by decide) (by decide) (by decide)
  exact ⟨by decide, h.1, h.2⟩

/-- C10: an accepted submission clears the input box, issues the request
with the original untrimmed text, and commits a user message whose
content is that exact untrimmed text; a rejected submission leaves the
input box unchanged. -/
theorem input_cleared_and_user_content_untrimmed (s : TurnState)
    (cs : List StreamChunk) :
    (rustTrim s.input ≠ "" → s.loading = false →
      (doSend s cs).1.input = "" ∧
      (doSend s cs).2 = some ⟨s.input, s.messages⟩ ∧
      (doSend s cs).1.messages[s.messages.length]? =
        some ⟨s.nextId, .user, s.input, []⟩) ∧
    ((rustTrim s.input = "" ∨ s.loading = true) →
      (doSend s cs).1.input = s.input) := by
  constructor
  · intro hin hload
    rw [doSend_accepted s cs hin hload]
    refine ⟨?_, rfl, ?_⟩
    · rw [dispatchChunks_input]; rfl
    · obtain ⟨t, ht⟩ := dispatchChunks_messages_prefix cs (submitState s)
      rw [ht]
      show (s.messages ++ [⟨s.nextId, .user, s.input, []⟩] ++ t)[s.messages.length]? = _
      rw [List.append_assoc, List.getElem?_append_right (Nat.le_refl _)]
      simp
  · intro h
    rcases h with h | h <;> simp [doSend, h]

/-- C10 witness: the input `" hi "` is stored untrimmed and the box is
cleared, while a busy session leaves the box unchanged. -/
theorem input_cleared_and_user_content_untrimmed_witness :
    rustTrim c10State.input ≠ "" ∧
    ((doSend c10State []).1.input = "" ∧
      (doSend c10State []).2 = some ⟨" hi ", []⟩ ∧
      (doSend c10State []).1.messages[(0 : Nat)]? =
        some ⟨0, .user, " hi ", []⟩) ∧
    c10Busy.loading = true ∧
    (doSend c10Busy []).1.input = c10Busy.input := by
  refine ⟨by decide, ?_, by decide, ?_⟩
  · exact (input_cleared_and_user_content_untrimmed c10State []).1
      (by decide) (by decide)
  · exact (input_cleared_and_user_content_untrimmed c10Busy []).2
      (Or.inr (by decide))

theorem IdInv_applyChunk {s : TurnState} (c : StreamChunk) (h : IdInv s) :
    IdInv (applyChunk s c) := by
  obtain ⟨h1, h2⟩ := h
  cases c with
  | done =>
    exact ⟨by simp [applyChunk, h1, h2, List.range_succ],
      by simp [applyChunk, h2]⟩
  | error m =>
    exact ⟨by simp [applyChunk, h1, h2, List.range_succ],
      by simp [applyChunk, h2]⟩
  | text t => exact ⟨h1, h2⟩
  | toolStart n => exact ⟨h1, h2⟩
  | toolEnd n => exact ⟨h1, h2⟩
  | chart sy hm => exact ⟨h1, h2⟩

theorem IdInv_dispatchChunks (cs : List StreamChunk) : ∀ s : TurnState,
    IdInv s → IdInv (dispatchChunks s cs).1 := by
  induction cs with
  | nil => intro s h; exact h
  | cons c rest ih =>
    intro s h
    by_cases hd : c.isDone
    · simpa [dispatchChunks, hd] using IdInv_applyChunk c h
    · simpa [dispatchChunks, hd] using ih _ (IdInv_applyChunk c h)

theorem IdInv_doSend (s : TurnState) (cs : List StreamChunk) (h : IdInv s) :
    IdInv (doSend s cs).1 := by
  by_cases h1 : rustTrim s.input = ""
  · simpa [doSend, h1] using h
  · by_cases h2 : s.loading
    · simpa [doSend, h1, h2] using h
    · have hacc := doSend_accepted s cs h1 (by simpa using h2)
      rw [hacc]
      apply IdInv_dispatchChunks
      obtain ⟨hA, hB⟩ := h
      exact ⟨by simp [submitState, hA, hB, List.range_succ],
        by simp [submitState, hB]⟩

theorem IdInv_runTurn (s : TurnState) (t : String × List StreamChunk)
    (h : IdInv s) : IdInv (runTurn s t) :=
  IdInv_doSend { s with input := t.1 } t.2 h

/-- C9: across any sequence of turns from a state satisfying the id
invariant, the committed ids are exactly `0, 1, ..., len-1` in commit
order (hence strictly increasing, never reused, and without gaps even
across rejected submissions). -/
theorem ids_strictly_increasing_across_turns (s : TurnState)
    (ts : List (String × List StreamChunk)) (h : IdInv s) :
    ((ts.foldl runTurn s).messages.map Message.id =
      List.range (ts.foldl runTurn s).messages.length) ∧
    List.Pairwise (· < ·) ((ts.foldl runTurn s).messages.map Message.id) := by
  have hinv : IdInv (ts.foldl runTurn s) := by
    induction ts generalizing s with
    | nil => exact h
    | cons t rest ih =>
      simp only [List.foldl_cons]
      exact ih (runTurn s t) (IdInv_runTurn s t h)
  exact ⟨hinv.1, by rw [hinv.1]; exact List.pairwise_lt_range _⟩

/-- C9 witness: a normal turn, a rejected whitespace-only submission, an
error-failed turn and a truncated turn hand out the ids 0..4 in order
with no gap. -/
theorem ids_strictly_increasing_across_turns_witness :
    IdInv initState ∧
    ((c9Turns.foldl runTurn initState).messages.map Message.id =
      List.range (c9Turns.foldl runTurn initState).messages.length) ∧
    List.Pairwise (· < ·)
      ((c9Turns.foldl runTurn initState).messages.map Message.id) :=
  ⟨⟨rfl, rfl⟩, ids_strictly_increasing_across_turns initState c9Turns ⟨rfl, rfl⟩⟩

end WxveChat
